import Mathlib

/-!
Verification of the paper-analyzer classification pipeline.

This file gives a shallow embedding of the Python sources
(`ai_utils.py`, `app.py`, `streamlit_app.py`) and proves or refutes the
frozen claims about them.

Modelling conventions:
* Python strings are `List Char`; `None`-able strings are `Option (List Char)`.
* Python `int` is `Int`; Python floor division `//` is `Int.fdiv`;
  Python slices are modelled by `pySliceTo` / `pySliceFrom` / `pySlice`
  with Python's negative-index and clamping semantics.
* Exceptions are modelled with `Except PyExc`; `PyExc.runtimeError msg`
  models `RuntimeError(msg)` and `PyExc.otherExc` any other exception.
* Remote provider calls are modelled by passing the outcome the remote
  service would produce (`Except PyExc (List Char)`) as a parameter; a
  result that does not depend on that parameter corresponds to code that
  never performs a network call.
* JSON values are the mutual inductive `Json`; numbers are kept as
  mantissa/decimal-exponent pairs (no floating point arithmetic is ever
  performed on them by the code under study, they are only passed through).
-/

/-! ## Python string and slice primitives -/

/-- Characters Python's `str.strip()` removes (ASCII whitespace). -/
def isPySpace (c : Char) : Bool :=
  c = ' ' ∨ c = '\t' ∨ c = '\n' ∨ c = '\r' ∨ c = '\x0b' ∨ c = '\x0c'

/-- Python `str.strip()` (both ends). -/
def pyStrip (l : List Char) : List Char :=
  ((l.dropWhile isPySpace).reverse.dropWhile isPySpace).reverse

/-- Python `str.lower()` (ASCII case folding suffices for all text used here). -/
def pyLower (l : List Char) : List Char := l.map Char.toLower

/-- Normalize a Python slice index against a length: negative indices count
from the end, and the result is clamped to `[0, n]`. -/
def pyIdx (n : Nat) (k : Int) : Nat :=
  (if k < 0 then (n : Int) + k else k).toNat ⊓ n

/-- Python `l[:j]`. -/
def pySliceTo (l : List α) (j : Int) : List α := l.take (pyIdx l.length j)

/-- Python `l[i:]`. -/
def pySliceFrom (l : List α) (i : Int) : List α := l.drop (pyIdx l.length i)

/-- Python `l[i:j]`. -/
def pySlice (l : List α) (i j : Int) : List α :=
  (l.take (pyIdx l.length j)).drop (pyIdx l.length i)

/-- Bool test for `sub in s` (substring containment), used for
`"safety filter" in str(e).lower()`. -/
def pyContains (hay needle : List Char) : Bool :=
  match hay with
  | [] => needle.isEmpty
  | _ :: rest => needle.isPrefixOf hay || pyContains rest needle

/-! ## `ai_utils._sample_text` -/

/-- The literal separator `"\n\n[... middle section ...]\n\n"`. -/
def middleSectionSep : List Char := "\n\n[... middle section ...]\n\n".toList

/-- The literal separator `"\n\n[... end section ...]\n\n"`. -/
def endSectionSep : List Char := "\n\n[... end section ...]\n\n".toList

/-- `ai_utils._sample_text(text, max_chars)`.  `none` models `text=None`;
`if not text` is true for both `None` and the empty string.  The code after
the first `return combined[:max_chars]` in the source is unreachable and is
not modelled. -/
def sample_text (text : Option (List Char)) (max_chars : Int) : List Char :=
  match text with
  | none => []
  | some t =>
    if t = [] then []
    else
      let text_len : Int := t.length
      if text_len ≤ max_chars then t
      else
        let chunk_size : Int := max_chars.fdiv 3
        let beginning := pySliceTo t chunk_size
        let middle_start : Int := text_len.fdiv 2 - chunk_size.fdiv 2
        let middle := pySlice t middle_start (middle_start + chunk_size)
        let tailPart := pySliceFrom t (-chunk_size)
        let combined :=
          beginning ++ middleSectionSep ++ middle ++ endSectionSep ++ tailPart
        pySliceTo combined max_chars

/-! ## JSON values and `json.loads`

Python's `json.loads` is modelled by a recursive-descent parser over
`List Char` driven by a fuel counter.  Numbers are stored exactly as a
mantissa and a decimal exponent (`num m e` denotes `m * 10^e`); the code
under study never computes with them, it only passes them through.  The
non-standard constants `NaN`/`Infinity` that Python additionally accepts
are not modelled; no claim touches them. -/

mutual
inductive Json where
  | null
  | bool (b : Bool)
  | num (mantissa exp10 : Int)
  | str (s : List Char)
  | arr (elems : JList)
  | obj (fields : JFields)
deriving DecidableEq
inductive JList where
  | nil
  | cons (hd : Json) (tl : JList)
deriving DecidableEq
inductive JFields where
  | nil
  | cons (key : List Char) (val : Json) (tl : JFields)
deriving DecidableEq
end

/-- Backtick character (written via its code point). -/
def btick : Char := '\x60'

/-- Opening curly brace character. -/
def lbrace : Char := '\x7b'

/-- Closing curly brace character. -/
def rbrace : Char := '\x7d'

/-- Double-quote character. -/
def dquote : Char := '\x22'

def JFields.lookupKey : JFields → List Char → Option Json
  | .nil, _ => none
  | .cons k v tl, key => if k = key then some v else tl.lookupKey key

def JFields.eraseKey : JFields → List Char → JFields
  | .nil, _ => .nil
  | .cons k v tl, key =>
    if k = key then tl.eraseKey key else .cons k v (tl.eraseKey key)

/-- Sequential Python-`dict` construction from a head pair and the dict of the
remaining pairs: the first occurrence of a key fixes its position, the last
occurrence fixes its value. -/
def jfieldsDictCons (k : List Char) (v : Json) (rest : JFields) : JFields :=
  match rest.lookupKey k with
  | some v' => .cons k v' (rest.eraseKey k)
  | none => .cons k v rest

/-- JSON whitespace (the four characters the JSON grammar allows). -/
def isJsonWs (c : Char) : Bool := c = ' ' ∨ c = '\t' ∨ c = '\n' ∨ c = '\r'

def jsonSkipWs (l : List Char) : List Char := l.dropWhile isJsonWs

def hexVal (c : Char) : Option Nat :=
  if '0' ≤ c ∧ c ≤ '9' then some (c.toNat - 48)
  else if 'a' ≤ c ∧ c ≤ 'f' then some (c.toNat - 87)
  else if 'A' ≤ c ∧ c ≤ 'F' then some (c.toNat - 55)
  else none

def natDigits (l : List Char) : Nat :=
  l.foldl (fun a c => a * 10 + (c.toNat - 48)) 0

/-- Lex a JSON number starting at the head of `l` (which begins with a digit
or a minus sign).  Follows the JSON grammar: `-? (0 | [1-9][0-9]*)
(. [0-9]+)? ([eE] [+-]? [0-9]+)?`. -/
def parseNumber (l : List Char) : Option (Json × List Char) :=
  let (neg, l1) :=
    match l with
    | c :: cs => if c = '-' then (true, cs) else (false, l)
    | [] => (false, l)
  let digits := l1.takeWhile Char.isDigit
  if digits = [] then none
  else
    let intDigits := if digits.headD '0' = '0' then ['0'] else digits
    let rest1 := l1.drop intDigits.length
    let (fracDigits, rest2) :=
      match rest1 with
      | c :: cs =>
        if c = '.' then (cs.takeWhile Char.isDigit, cs.dropWhile Char.isDigit)
        else ([], rest1)
      | [] => ([], rest1)
    if rest1 ≠ [] ∧ rest1.headD ' ' = '.' ∧ fracDigits = [] then none
    else
      let expRes : Option (Int × List Char) :=
        match rest2 with
        | c :: cs =>
          if c = 'e' ∨ c = 'E' then
            let (esign, cs2) :=
              match cs with
              | d :: ds =>
                if d = '+' then ((1 : Int), ds)
                else if d = '-' then ((-1 : Int), ds)
                else ((1 : Int), cs)
              | [] => ((1 : Int), cs)
            let edigits := cs2.takeWhile Char.isDigit
            if edigits = [] then none
            else some (esign * natDigits edigits, cs2.drop edigits.length)
          else some (0, rest2)
        | [] => some (0, rest2)
      match expRes with
      | none => none
      | some (eval, rest3) =>
        let mant0 : Nat := natDigits intDigits * 10 ^ fracDigits.length + natDigits fracDigits
        let mant : Int := if neg then -(mant0 : Int) else (mant0 : Int)
        some (Json.num mant (eval - fracDigits.length), rest3)

/-- Scan the body of a JSON string literal (after the opening quote),
accumulating decoded characters in reverse.  Strict mode: raw control
characters are rejected. -/
def parseStringBody : Nat → List Char → List Char → Option (List Char × List Char)
  | 0, _, _ => none
  | _ + 1, [], _ => none
  | fuel + 1, c :: cs, acc =>
    if c = dquote then some (acc.reverse, cs)
    else if c = '\\' then
      match cs with
      | [] => none
      | e :: es =>
        if e = dquote then parseStringBody fuel es (dquote :: acc)
        else if e = '\\' then parseStringBody fuel es ('\\' :: acc)
        else if e = '/' then parseStringBody fuel es ('/' :: acc)
        else if e = 'b' then parseStringBody fuel es ('\x08' :: acc)
        else if e = 'f' then parseStringBody fuel es ('\x0c' :: acc)
        else if e = 'n' then parseStringBody fuel es ('\n' :: acc)
        else if e = 'r' then parseStringBody fuel es ('\r' :: acc)
        else if e = 't' then parseStringBody fuel es ('\t' :: acc)
        else if e = 'u' then
          match es with
          | h1 :: h2 :: h3 :: h4 :: es2 =>
            match hexVal h1, hexVal h2, hexVal h3, hexVal h4 with
            | some a, some b, some c2, some d =>
              parseStringBody fuel es2 (Char.ofNat (((a * 16 + b) * 16 + c2) * 16 + d) :: acc)
            | _, _, _, _ => none
          | _ => none
        else none
    else if c.toNat < 32 then none
    else parseStringBody fuel cs (c :: acc)

mutual

/-- Parse one JSON value whose first character is at the head of the input
(leading whitespace already skipped by the caller). -/
def parseValue : Nat → List Char → Option (Json × List Char)
  | 0, _ => none
  | fuel + 1, l =>
    match l with
    | [] => none
    | c :: cs =>
      if c = lbrace then
        match jsonSkipWs cs with
        | [] => none
        | d :: ds =>
          if d = rbrace then some (Json.obj .nil, ds)
          else
            match parseFields fuel (d :: ds) with
            | some (fs, rest) => some (Json.obj fs, rest)
            | none => none
      else if c = '[' then
        match jsonSkipWs cs with
        | [] => none
        | d :: ds =>
          if d = ']' then some (Json.arr .nil, ds)
          else
            match parseElems fuel (d :: ds) with
            | some (es, rest) => some (Json.arr es, rest)
            | none => none
      else if c = dquote then
        match parseStringBody (fuel + 1) cs [] with
        | some (s, rest) => some (Json.str s, rest)
        | none => none
      else if c = 't' then
        if "rue".toList.isPrefixOf cs then some (Json.bool true, cs.drop 3) else none
      else if c = 'f' then
        if "alse".toList.isPrefixOf cs then some (Json.bool false, cs.drop 4) else none
      else if c = 'n' then
        if "ull".toList.isPrefixOf cs then some (Json.null, cs.drop 3) else none
      else if c = '-' ∨ c.isDigit then parseNumber l
      else none

/-- Parse the members of a JSON object (after the opening brace and any
whitespace, at the first key). -/
def parseFields : Nat → List Char → Option (JFields × List Char)
  | 0, _ => none
  | fuel + 1, l =>
    match l with
    | c :: cs =>
      if c = dquote then
        match parseStringBody (fuel + 1) cs [] with
        | some (k, rest) =>
          match jsonSkipWs rest with
          | ':' :: r2 =>
            match parseValue fuel (jsonSkipWs r2) with
            | some (v, r3) =>
              match jsonSkipWs r3 with
              | ',' :: r4 =>
                match parseFields fuel (jsonSkipWs r4) with
                | some (fs, r5) => some (jfieldsDictCons k v fs, r5)
                | none => none
              | d :: r4 =>
                if d = rbrace then some (JFields.cons k v .nil, r4) else none
              | [] => none
            | none => none
          | _ => none
        | none => none
      else none
    | [] => none

/-- Parse the elements of a JSON array (after the opening bracket and any
whitespace, at the first element). -/
def parseElems : Nat → List Char → Option (JList × List Char)
  | 0, _ => none
  | fuel + 1, l =>
    match parseValue fuel l with
    | some (v, rest) =>
      match jsonSkipWs rest with
      | ',' :: r2 =>
        match parseElems fuel (jsonSkipWs r2) with
        | some (es, r3) => some (JList.cons v es, r3)
        | none => none
      | d :: r2 => if d = ']' then some (JList.cons v .nil, r2) else none
      | [] => none
    | none => none

end

/-- Python `json.loads`: parse one value and require only whitespace after
it; `none` models a raised `json.JSONDecodeError`. -/
def json_loads (l : List Char) : Option Json :=
  match parseValue (l.length + 1) (jsonSkipWs l) with
  | some (v, rest) => if jsonSkipWs rest = [] then some v else none
  | none => none

/-! ## `ai_utils._extract_json` -/

/-- The greedy regex stage: `re.search(r'\x7b[\s\S]*\x7d', s)` returns the
segment from the first opening brace to the last closing brace, provided that
closing brace comes after the opening one. -/
def braceRegion (l : List Char) : Option (List Char) :=
  let l2 := l.dropWhile (fun c => ¬(c = lbrace))
  if l2.isEmpty then none
  else
    let r := l2.reverse.dropWhile (fun c => ¬(c = rbrace))
    if r.isEmpty then none else some r.reverse

/-- The fence-stripping preamble of `_extract_json`: strip the text, and if it
starts with three backticks drop everything up to and including the first
newline (if any), drop a trailing three-backtick fence (if any), and strip
again. -/
def fenceCleaned (text : List Char) : List Char :=
  let cleaned0 := pyStrip text
  if [btick, btick, btick].isPrefixOf cleaned0 then
    let afterFence :=
      match cleaned0.dropWhile (fun c => ¬(c = '\n')) with
      | [] => cleaned0
      | _ :: rest => rest
    let noClose :=
      if [btick, btick, btick].isSuffixOf afterFence then pySliceTo afterFence (-3)
      else afterFence
    pyStrip noClose
  else cleaned0

/-- `ai_utils._extract_json`: try `json.loads` on the fence-stripped text,
then on the first-to-last brace region of it, then on the original text; on
total failure return the empty mapping (never raises). -/
def extract_json (text : List Char) : Json :=
  let cleaned := fenceCleaned text
  match json_loads cleaned with
  | some v => v
  | none =>
    match (braceRegion cleaned).bind json_loads with
    | some v => v
    | none =>
      match json_loads text with
      | some v => v
      | none => Json.obj .nil

/-! ## `ai_utils` providers and adapters -/

/-- A Python exception: a `RuntimeError` carrying its message, or any other
exception (whose details the code under study never inspects). -/
inductive PyExc where
  | runtimeError (msg : List Char)
  | otherExc
deriving DecidableEq

/-- Decidable equality for modelled call outcomes. -/
instance instDecEqExcept [DecidableEq ε] [DecidableEq α] : DecidableEq (Except ε α) :=
  fun a b =>
  match a, b with
  | .ok x, .ok y =>
    if h : x = y then isTrue (by rw [h]) else isFalse (by intro hc; cases hc; exact h rfl)
  | .error x, .error y =>
    if h : x = y then isTrue (by rw [h]) else isFalse (by intro hc; cases hc; exact h rfl)
  | .ok _, .error _ => isFalse (by intro hc; cases hc)
  | .error _, .ok _ => isFalse (by intro hc; cases hc)

/-- Which providers are usable: each flag models
`<LIB>_AVAILABLE and <LIB>_API_KEY` for that backend. -/
structure Avail where
  groq : Bool
  gemini : Bool
  openai : Bool
deriving DecidableEq

/-- `ai_utils.DEFAULT_PROVIDER` (module-level conditional expression). -/
def DEFAULT_PROVIDER (a : Avail) : List Char :=
  if a.groq then "groq".toList
  else if a.gemini then "gemini".toList
  else if a.openai then "openai".toList
  else "basic".toList

/-- `ai_utils.get_available_providers`. -/
def get_available_providers (a : Avail) : List (List Char) :=
  (if a.groq then ["groq".toList] else []) ++
  (if a.gemini then ["gemini".toList] else []) ++
  (if a.openai then ["openai".toList] else []) ++
  ["basic".toList]

/-- `provider = provider or DEFAULT_PROVIDER`: `None` and the empty string
are falsy and resolve to the default. -/
def resolveProvider (providerArg : Option (List Char)) (a : Avail) : List Char :=
  match providerArg with
  | none => DEFAULT_PROVIDER a
  | some p => if p = [] then DEFAULT_PROVIDER a else p

/-- `ai_utils._call_groq`: raises `RuntimeError("Groq not available")` when the
library or key is missing, otherwise produces whatever the remote service
produces (`remote` abstracts the network interaction, successful text or a
raised exception). -/
def call_groq (a : Avail) (remote : Except PyExc (List Char)) : Except PyExc (List Char) :=
  if a.groq then remote else .error (.runtimeError "Groq not available".toList)

/-- `ai_utils._call_gemini`; a content-safety block surfaces as
`RuntimeError("Content blocked by safety filter: ...")` in `remote`. -/
def call_gemini (a : Avail) (remote : Except PyExc (List Char)) : Except PyExc (List Char) :=
  if a.gemini then remote else .error (.runtimeError "Gemini not available".toList)

/-- `ai_utils._call_openai`. -/
def call_openai (a : Avail) (remote : Except PyExc (List Char)) : Except PyExc (List Char) :=
  if a.openai then remote else .error (.runtimeError "OpenAI not available".toList)

/-- Dispatch on the provider name, exactly as the `if/elif` chains in
`analyze_chapters_ai` / `extract_topics_ai` / `classify_questions_ai` do.
Only call this when the provider is one of the three AI identifiers. -/
def callAdapter (provider : List Char) (a : Avail)
    (remote : Except PyExc (List Char)) : Except PyExc (List Char) :=
  if provider = "groq".toList then call_groq a remote
  else if provider = "gemini".toList then call_gemini a remote
  else call_openai a remote

/-- Membership test for the three AI provider identifiers. -/
def isAiProvider (provider : List Char) : Bool :=
  provider = "groq".toList ∨ provider = "gemini".toList ∨ provider = "openai".toList

/-! ## `ai_utils` result normalization -/

def JList.toList : JList → List Json
  | .nil => []
  | .cons h t => h :: t.toList

def JFields.keysList : JFields → List (List Char)
  | .nil => []
  | .cons k _ t => k :: t.keysList

/-- Python `value.get(key, default)`: raises (`AttributeError`) unless `value`
is a dict. -/
def pyDictGet (j : Json) (key : List Char) (default : Json) : Except PyExc Json :=
  match j with
  | .obj fs => .ok ((fs.lookupKey key).getD default)
  | _ => .error .otherExc

/-- Python `for x in value`: lists yield elements, dicts yield keys, strings
yield one-character strings; any other value raises `TypeError`. -/
def iterElems : Json → Except PyExc (List Json)
  | .arr es => .ok es.toList
  | .obj fs => .ok (fs.keysList.map Json.str)
  | .str s => .ok (s.map (fun c => Json.str [c]))
  | _ => .error .otherExc

/-- Python truthiness of a JSON-shaped value. -/
def pyTruthy : Json → Bool
  | .null => false
  | .bool b => b
  | .num m _ => m ≠ 0
  | .str s => s ≠ []
  | .arr es => es ≠ .nil
  | .obj fs => fs ≠ .nil

/-- `d[k] = v` on a Python dict: update in place if the key exists, else
append. -/
def jdictInsert (d : List (Json × Json)) (k v : Json) : List (Json × Json) :=
  if d.any (fun p => p.1 = k) then d.map (fun p => if p.1 = k then (p.1, v) else p)
  else d ++ [(k, v)]

/-- The chapter-analysis result shape
`(chapters: dict, primary_subject: value)`. -/
structure ChapterResult where
  chapters : List (Json × Json)
  primary_subject : Json
deriving DecidableEq

def emptyChapterResult : ChapterResult := ⟨[], Json.str "Unknown".toList⟩

/-- The normalization loop of `analyze_chapters_ai` (lines 197-204): build
`{name: confidence}` from `data.get("chapters", [])` and read
`primary_subject`.  Any `.get` on a non-dict or iteration of a non-iterable
raises, which the surrounding `except` turns into the empty result. -/
def normalizeChapters (data : Json) : Except PyExc ChapterResult := do
  let chaptersRaw ← pyDictGet data "chapters".toList (Json.arr .nil)
  let items ← iterElems chaptersRaw
  let chapters ← items.foldlM (fun acc ch => do
    let name ← pyDictGet ch "name".toList (Json.str "Unknown".toList)
    let conf ← pyDictGet ch "confidence".toList (Json.num 5 (-1))
    pure (jdictInsert acc name conf)) []
  let primary ← pyDictGet data "primary_subject".toList (Json.str "Unknown".toList)
  pure ⟨chapters, primary⟩

/-- The normalization loop of `extract_topics_ai` (lines 243-249): keep only
items whose `topic` is truthy. -/
def normalizeTopics (data : Json) : Except PyExc (List (Json × Json)) := do
  let topicsRaw ← pyDictGet data "topics".toList (Json.arr .nil)
  let items ← iterElems topicsRaw
  items.foldlM (fun acc item => do
    let topic ← pyDictGet item "topic".toList (Json.str [])
    if pyTruthy topic then
      let rel ← pyDictGet item "relevance".toList (Json.num 5 (-1))
      pure (jdictInsert acc topic rel)
    else pure acc) []

/-- The shared `except RuntimeError / except Exception` tail of
`analyze_chapters_ai` and `extract_topics_ai`: a `RuntimeError` whose
lower-cased message contains `"safety filter"` yields the empty result; any
other `RuntimeError` is re-raised by the bare `raise` — and an exception
re-raised inside an `except` clause is NOT caught by the following
`except Exception` clause of the same `try`, so it propagates; every
non-`RuntimeError` exception yields the empty result. -/
def aiExcTail (empty : α) (e : PyExc) : Except PyExc α :=
  match e with
  | .runtimeError m =>
    if pyContains (pyLower m) "safety filter".toList then .ok empty
    else .error (.runtimeError m)
  | .otherExc => .ok empty

/-- `ai_utils.analyze_chapters_ai`.  The prompt built from
`_sample_text(text, sample_size)` only feeds the adapter; the adapter's
behaviour is abstracted by `remote`, so the prompt does not appear in the
result. -/
def analyze_chapters_ai (_text : List Char) (providerArg : Option (List Char))
    (a : Avail) (remote : Except PyExc (List Char)) : Except PyExc ChapterResult :=
  let provider := resolveProvider providerArg a
  if isAiProvider provider then
    let attempt : Except PyExc ChapterResult := do
      let s ← callAdapter provider a remote
      normalizeChapters (extract_json s)
    match attempt with
    | .ok r => .ok r
    | .error e => aiExcTail emptyChapterResult e
  else .ok emptyChapterResult

/-- `ai_utils.extract_topics_ai`. -/
def extract_topics_ai (_text : List Char) (providerArg : Option (List Char))
    (a : Avail) (remote : Except PyExc (List Char)) : Except PyExc (List (Json × Json)) :=
  let provider := resolveProvider providerArg a
  if isAiProvider provider then
    let attempt : Except PyExc (List (Json × Json)) := do
      let s ← callAdapter provider a remote
      normalizeTopics (extract_json s)
    match attempt with
    | .ok r => .ok r
    | .error e => aiExcTail [] e
  else .ok []

/-! ## `ai_utils.classify_questions_ai` -/

/-- One `{"chapter": ..., "topics": ..., "confidence": ...}` record. -/
structure QRec where
  chapter : Json
  topics : Json
  confidence : Json
deriving DecidableEq

/-- The record appended when a question's classification fails:
`{"chapter": "Unknown", "topics": [], "confidence": 0.0}`. -/
def defaultQRec : QRec := ⟨.str "Unknown".toList, .arr .nil, .num 0 0⟩

def normalizeQuestion (data : Json) : Except PyExc QRec := do
  let ch ← pyDictGet data "chapter".toList (.str "Unknown".toList)
  let tp ← pyDictGet data "topics".toList (.arr .nil)
  let cf ← pyDictGet data "confidence".toList (.num 5 (-1))
  pure ⟨ch, tp, cf⟩

/-- The body of the per-question loop of `classify_questions_ai`.  A question
is a pair of its text (only used for the prompt, truncated to 500 chars) and
the remote outcome of its adapter call.  The loop's `try/except Exception`
catches every failure and appends the default record; an unknown non-basic
provider hits the inner `else`, which also appends the default record. -/
def handleQuestion (provider : List Char) (a : Avail)
    (q : List Char × Except PyExc (List Char)) : QRec :=
  if isAiProvider provider then
    let attempt : Except PyExc QRec := do
      let s ← callAdapter provider a q.2
      normalizeQuestion (extract_json s)
    match attempt with
    | .ok r => r
    | .error _ => defaultQRec
  else defaultQRec

/-- `ai_utils.classify_questions_ai`: for provider `"basic"` return one
default record per question (no cap!); otherwise process only
`questions[:max_questions]`, one record per processed question, in order. -/
def classify_questions_ai (questions : List (List Char × Except PyExc (List Char)))
    (providerArg : Option (List Char)) (a : Avail) (max_questions : Int) : List QRec :=
  let provider := resolveProvider providerArg a
  if provider = "basic".toList then questions.map (fun _ => defaultQRec)
  else (pySliceTo questions max_questions).map (handleQuestion provider a)

/-! ## `app.py` keyword heuristics -/

/-- Regex `\w` (ASCII range; all texts in the lexicons and claims are ASCII). -/
def isWordChar (c : Char) : Bool :=
  ('a' ≤ c ∧ c ≤ 'z') ∨ ('A' ≤ c ∧ c ≤ 'Z') ∨ ('0' ≤ c ∧ c ≤ '9') ∨ c = '_'

/-- Word-boundary condition before a match of `k`: the previous position's
word-ness must differ from that of the first character of `k` (start of
string counts as non-word). -/
def boundaryBeforeOk (k : List Char) (prevW : Bool) : Bool :=
  prevW != isWordChar (k.headD ' ')

/-- Word-boundary condition after a match of `k`, given the remainder that
follows the match. -/
def boundaryAfterOk (k : List Char) (restAfter : List Char) : Bool :=
  match restAfter with
  | [] => isWordChar (k.getLastD ' ')
  | d :: _ => isWordChar (k.getLastD ' ') != isWordChar d

/-- Left-to-right non-overlapping scan counting matches of the literal `k`
bounded by `\b` on both sides, as
`re.findall(r'\b' + re.escape(k) + r'\b', text)` does.  `prevW` records
whether the character before the current position is a word character. -/
def countOccAux (k : List Char) : Nat → List Char → Bool → Nat
  | 0, _, _ => 0
  | _ + 1, [], _ => 0
  | fuel + 1, c :: rest, prevW =>
    if k ≠ [] ∧ k.isPrefixOf (c :: rest) ∧ boundaryBeforeOk k prevW
        ∧ boundaryAfterOk k ((c :: rest).drop k.length) then
      1 + countOccAux k fuel ((c :: rest).drop k.length) (isWordChar (k.getLastD ' '))
    else countOccAux k fuel rest (isWordChar c)

/-- Number of whole-word occurrences of `k` in `t`.  Every recursive step of
the scan consumes at least one character, so `t.length` fuel always
completes the scan. -/
def countOcc (k : List Char) (t : List Char) : Nat := countOccAux k t.length t false

/-- Insert into a list sorted descending by the numeric second component,
after any entries with an equal or larger count (stable insertion). -/
def insertDesc (x : κ × Nat) : List (κ × Nat) → List (κ × Nat)
  | [] => [x]
  | y :: ys => if y.2 ≤ x.2 then x :: y :: ys else y :: insertDesc x ys

/-- Stable sort, descending by count: the unique output of any stable sorting
algorithm (such as Python's `sorted(..., key=..., reverse=True)`) under the
key `fun p => p.2` taken descending. -/
def sortCountDesc : List (κ × Nat) → List (κ × Nat)
  | [] => []
  | x :: xs => insertDesc x (sortCountDesc xs)

/-- `app.py`'s `CHAPTER_KEYWORDS` lexicon (the Flask backend's short lists). -/
def CHAPTER_KEYWORDS : List (List Char × List (List Char)) :=
  [("Mathematics".toList,
    ["algebra".toList, "calculus".toList, "geometry".toList, "trigonometry".toList,
     "statistics".toList, "probability".toList]),
   ("Physics".toList,
    ["mechanics".toList, "thermodynamics".toList, "optics".toList,
     "electromagnetism".toList, "waves".toList, "quantum".toList]),
   ("Chemistry".toList,
    ["organic".toList, "inorganic".toList, "physical chemistry".toList,
     "chemical bonding".toList, "equilibrium".toList]),
   ("Biology".toList,
    ["cell".toList, "genetics".toList, "evolution".toList, "ecology".toList,
     "physiology".toList, "botany".toList, "zoology".toList]),
   ("Computer Science".toList,
    ["programming".toList, "algorithms".toList, "data structures".toList,
     "database".toList, "networks".toList, "operating system".toList]),
   ("English".toList,
    ["grammar".toList, "comprehension".toList, "literature".toList,
     "writing".toList, "vocabulary".toList]),
   ("History".toList,
    ["ancient".toList, "medieval".toList, "modern".toList, "civilization".toList,
     "revolution".toList, "war".toList]),
   ("Geography".toList,
    ["physical geography".toList, "human geography".toList, "climate".toList,
     "maps".toList, "resources".toList])]

/-- Summed whole-word keyword count of one subject's keyword list in the
lower-cased text. -/
def subjectCount (kws : List (List Char)) (text_lower : List Char) : Nat :=
  kws.foldl (fun acc kw => acc + countOcc (pyLower kw) text_lower) 0

/-- `app.py analyze_chapters`: per-subject summed keyword counts, zero-count
subjects omitted, sorted descending by count (Python's `sorted` is stable,
as is `mergeSort`). -/
def analyze_chapters (text : List Char) : List (List Char × Nat) :=
  let text_lower := pyLower text
  let counts := CHAPTER_KEYWORDS.map (fun p => (p.1, subjectCount p.2 text_lower))
  sortCountDesc (counts.filter (fun p => p.2 ≠ 0))

/-- `app.py extract_topics`'s stop-word set. -/
def stop_words : List (List Char) :=
  ["the".toList, "a".toList, "an".toList, "and".toList, "or".toList, "but".toList,
   "in".toList, "on".toList, "at".toList, "to".toList, "for".toList,
   "of".toList, "with".toList, "by".toList, "from".toList, "as".toList,
   "is".toList, "was".toList, "are".toList, "were".toList, "be".toList,
   "been".toList, "being".toList, "have".toList, "has".toList, "had".toList,
   "do".toList, "does".toList, "did".toList, "will".toList,
   "would".toList, "could".toList, "should".toList, "may".toList,
   "might".toList, "must".toList, "can".toList, "this".toList,
   "that".toList, "these".toList, "those".toList, "what".toList,
   "which".toList, "who".toList, "when".toList, "where".toList,
   "why".toList, "how".toList, "question".toList, "answer".toList,
   "marks".toList, "write".toList, "explain".toList]

def wordRunsAux : Nat → List Char → List (List Char)
  | 0, _ => []
  | _ + 1, [] => []
  | fuel + 1, c :: rest =>
    if isWordChar c then
      ((c :: rest).takeWhile isWordChar) :: wordRunsAux fuel ((c :: rest).dropWhile isWordChar)
    else wordRunsAux fuel rest

/-- Maximal runs of `\w` characters of a text (every recursive step consumes
at least one character, so `l.length` fuel always completes the split). -/
def wordRuns (l : List Char) : List (List Char) := wordRunsAux l.length l

def isLowerAlpha (c : Char) : Bool := 'a' ≤ c ∧ c ≤ 'z'

/-- `re.findall(r'\b[a-z]\x7b3,\x7d\b', s)`: exactly the maximal word-character
runs that consist solely of lowercase letters and have length at least 3. -/
def findallLowerWords (l : List Char) : List (List Char) :=
  (wordRuns l).filter (fun r => 3 ≤ r.length ∧ r.all isLowerAlpha)

/-- One `Counter` update: increment in place or append with count 1. -/
def counterAdd (acc : List (List Char × Nat)) (w : List Char) : List (List Char × Nat) :=
  if acc.any (fun p => p.1 = w) then
    acc.map (fun p => if p.1 = w then (p.1, p.2 + 1) else p)
  else acc ++ [(w, 1)]

/-- `app.py extract_topics`: lowercase word tokens of length ≥ 3, stop words
removed, counted; the 20 most common, ties broken by first-occurrence order
(`Counter` preserves insertion order and `most_common` sorts stably). -/
def extract_topics (text : List Char) : List (List Char × Nat) :=
  let words := findallLowerWords (pyLower text)
  let filtered := words.filter (fun w => ¬ stop_words.contains w)
  let counts := filtered.foldl counterAdd []
  (sortCountDesc counts).take 20

/-! ## Supplementation policies (`app.py upload_file` and
`streamlit_app.py run_analysis_on_bytes`) -/

/-- The Flask supplementation loop (`app.py` lines 189-201): when the AI
result has fewer than `threshold` entries, walk the heuristic result and add
every entry whose name is not already a key of the evolving dict. -/
def supplementEntries [DecidableEq κ] (threshold : Nat)
    (ai basic : List (κ × α)) : List (κ × α) :=
  if ai.length < threshold then
    basic.foldl (fun acc p => if acc.any (fun q => q.1 = p.1) then acc else acc ++ [p]) ai
  else ai

/-- The Streamlit fallback (`streamlit_app.py` lines 313-319): the heuristic
result replaces the AI result only when the AI result is entirely empty
(`if not chapters: ...`); otherwise the AI result is kept untouched. -/
def streamlitSupplement (ai basic : List (κ × α)) : List (κ × α) :=
  if ai.isEmpty then basic else ai

/-- Characters that can begin a JSON document accepted by `json.loads`
(including Python's non-standard `NaN`/`Infinity`), or a markdown code
fence.  Free-form prose starting with any other character can neither make
the whole reply parse as JSON nor look fence-wrapped. -/
def jsonStartish (c : Char) : Bool :=
  c = lbrace ∨ c = '[' ∨ c = dquote ∨ c = 't' ∨ c = 'f' ∨ c = 'n' ∨
  c = '-' ∨ c.isDigit ∨ c = 'N' ∨ c = 'I' ∨ c = btick

/-! # Theorems

First a few general-purpose lemmas about the helper functions, then one
theorem per claim (with its witness / counterexample where required). -/

theorem insertDesc_perm (x : κ × Nat) (l : List (κ × Nat)) :
    (insertDesc x l).Perm (x :: l) := by
  induction l with
  | nil => simp [insertDesc]
  | cons y ys ih =>
    by_cases h : y.2 ≤ x.2
    · simp [insertDesc, h]
    · simp only [insertDesc, if_neg h]
      exact (ih.cons y).trans (List.Perm.swap x y ys)

theorem sortCountDesc_perm (l : List (κ × Nat)) : (sortCountDesc l).Perm l := by
  induction l with
  | nil => simp [sortCountDesc]
  | cons x xs ih => exact (insertDesc_perm x (sortCountDesc xs)).trans (ih.cons x)

theorem insertDesc_pairwise (x : κ × Nat) (l : List (κ × Nat))
    (h : l.Pairwise (fun a b => b.2 ≤ a.2)) :
    (insertDesc x l).Pairwise (fun a b => b.2 ≤ a.2) := by
  induction l with
  | nil => simp [insertDesc]
  | cons y ys ih =>
    rcases List.pairwise_cons.mp h with ⟨hy, hys⟩
    by_cases hle : y.2 ≤ x.2
    · rw [insertDesc, if_pos hle]
      refine List.pairwise_cons.mpr ⟨?_, h⟩
      intro z hz
      rcases List.mem_cons.mp hz with rfl | hz
      · exact hle
      · exact (hy z hz).trans hle
    · rw [insertDesc, if_neg hle]
      refine List.pairwise_cons.mpr ⟨?_, ih hys⟩
      intro z hz
      have hz' := (insertDesc_perm x ys).mem_iff.mp hz
      rcases List.mem_cons.mp hz' with rfl | hz'
      · exact Nat.le_of_not_le hle
      · exact hy z hz'

theorem sortCountDesc_pairwise (l : List (κ × Nat)) :
    (sortCountDesc l).Pairwise (fun a b => b.2 ≤ a.2) := by
  induction l with
  | nil => simp [sortCountDesc]
  | cons x xs ih => exact insertDesc_pairwise x (sortCountDesc xs) ih

theorem except_bind_error (e : ε) (f : α → Except ε β) :
    (do let s ← (Except.error e : Except ε α); f s) = Except.error e := rfl

theorem except_bind_ok (a : α) (f : α → Except ε β) :
    (do let s ← (Except.ok a : Except ε α); f s) = f a := rfl

theorem pySliceTo_length_le (l : List α) (j : Int) (hj : 0 ≤ j) :
    ((pySliceTo l j).length : Int) ≤ j := by
  simp only [pySliceTo, pyIdx, List.length_take]
  rw [if_neg (by omega)]
  have h1 : (j.toNat : Int) = j := Int.toNat_of_nonneg hj
  omega

/-- Claim C6: for every text with `len(text) <= max_chars`, `_sample_text`
returns the text unchanged (identity on short input). -/
theorem sample_text_short_identity (t : List Char) (max_chars : Int)
    (h : (t.length : Int) ≤ max_chars) :
    sample_text (some t) max_chars = t := by
  by_cases ht : t = []
  · subst ht; simp [sample_text]
  · simp [sample_text, ht, h]

/-- Witness for C6 at `text = "abc"`, `max_chars = 5`. -/
theorem sample_text_short_identity_witness :
    (("abc".toList.length : Int) ≤ 5) ∧ sample_text (some "abc".toList) 5 = "abc".toList :=
  ⟨by decide, sample_text_short_identity "abc".toList 5 (by decide)⟩

/-- Claim C5 counterexample: the length bound fails for a negative budget:
`_sample_text("x", -1)` returns the 52-character truncated separator
assembly, and `52 ≤ -1` is false.  (On this input Python takes the
else-branch, builds `combined` out of two separator markers and empty
slices, and `combined[:-1]` drops only the final character.) -/
theorem sample_text_bound_counterexample :
    ¬ (((sample_text (some "x".toList) (-1)).length : Int) ≤ -1) := by decide

/-- Claim C5 (amended): for every text (`None` treated as the empty string,
never raising) and every nonnegative `max_chars`, the result of
`_sample_text` has length at most `max_chars`; for a negative budget the
final defensive truncation `combined[:max_chars]` is a negative-index slice
and the bound can fail (see the counterexample). -/
theorem sample_text_bound (text : Option (List Char)) (max_chars : Int)
    (h : 0 ≤ max_chars) :
    ((sample_text text max_chars).length : Int) ≤ max_chars
    ∧ sample_text none max_chars = [] := by
  refine ⟨?_, rfl⟩
  match text with
  | none => simpa using h
  | some t =>
    by_cases ht : t = []
    · subst ht; simp [sample_text]; omega
    · by_cases hlen : (t.length : Int) ≤ max_chars
      · have hid : sample_text (some t) max_chars = t := by simp [sample_text, ht, hlen]
        rw [hid]; exact hlen
      · simp only [sample_text, if_neg ht, if_neg hlen]
        exact pySliceTo_length_le _ max_chars h

/-- Witness for C5 at `text = 10*"a"` (as an `Option`), `max_chars = 3`. -/
theorem sample_text_bound_witness :
    ((sample_text (some (List.replicate 10 'a')) 3).length : Int) ≤ 3
    ∧ sample_text none 3 = [] :=
  sample_text_bound (some (List.replicate 10 'a')) 3 (by decide)

/-- Claim C7: the default provider is the first available one in the fixed
order groq, gemini, openai (equivalently, the head of the usable-provider
list), falling back to "basic"; the usable-provider list contains exactly
the available providers in that order with "basic" always present and last;
and with no credentials `analyze_chapters_ai` resolves to "basic" and
returns the empty result for every remote outcome, i.e. without invoking
any provider adapter. -/
theorem provider_selection (a : Avail) :
    (get_available_providers a).head? = some (DEFAULT_PROVIDER a)
    ∧ (get_available_providers a).getLast? = some "basic".toList
    ∧ (get_available_providers a).Sublist
        ["groq".toList, "gemini".toList, "openai".toList, "basic".toList]
    ∧ (∀ p : List Char, p ∈ get_available_providers a ↔
        ((p = "groq".toList ∧ a.groq) ∨ (p = "gemini".toList ∧ a.gemini)
          ∨ (p = "openai".toList ∧ a.openai) ∨ p = "basic".toList))
    ∧ (a.groq = false → a.gemini = false → a.openai = false →
        DEFAULT_PROVIDER a = "basic".toList
        ∧ ∀ (remote : Except PyExc (List Char)) (text : List Char),
            analyze_chapters_ai text none a remote = .ok emptyChapterResult) := by
  obtain ⟨g, ge, o⟩ := a
  cases g <;> cases ge <;> cases o <;>
    refine ⟨by decide, by decide, by decide,
      fun p => by simp [get_available_providers]; try tauto, fun h1 h2 h3 => ?_⟩ <;>
    first
      | exact absurd h1 (by decide)
      | exact absurd h2 (by decide)
      | exact absurd h3 (by decide)
      | exact ⟨rfl, fun remote text => rfl⟩

/-- Witness for C7 at the no-credentials configuration. -/
theorem provider_selection_witness :
    DEFAULT_PROVIDER ⟨false, false, false⟩ = "basic".toList
    ∧ ∀ (remote : Except PyExc (List Char)) (text : List Char),
        analyze_chapters_ai text none ⟨false, false, false⟩ remote
          = .ok emptyChapterResult :=
  (provider_selection ⟨false, false, false⟩).2.2.2.2 rfl rfl rfl

/-- Claim C1 counterexample: when the adapter call fails because the
provider's credentials/library are missing (`RuntimeError("Groq not
available")`), `analyze_chapters_ai` and `extract_topics_ai` do NOT return
the empty result: the bare `raise` in the `except RuntimeError` clause
re-raises the exception, and an exception raised inside an `except` clause
is not caught by the following `except Exception` clause of the same `try`,
so it propagates to the caller. -/
theorem ai_failure_counterexample :
    analyze_chapters_ai [] (some "groq".toList) ⟨false, false, false⟩ (.ok []) =
      .error (.runtimeError "Groq not available".toList)
    ∧ analyze_chapters_ai [] (some "groq".toList) ⟨false, false, false⟩ (.ok []) ≠
      .ok emptyChapterResult
    ∧ extract_topics_ai [] (some "groq".toList) ⟨false, false, false⟩ (.ok []) =
      .error (.runtimeError "Groq not available".toList)
    ∧ extract_topics_ai [] (some "groq".toList) ⟨false, false, false⟩ (.ok []) ≠
      .ok [] := by
  refine ⟨by decide, ?_, by decide, ?_⟩ <;> decide

/-- Claim C1 (amended): for every text and every provider among
groq/gemini/openai whose adapter call fails, `analyze_chapters_ai` and
`extract_topics_ai` return the well-typed empty results
(`{"chapters": {}, "primary_subject": "Unknown"}` and `{}`) when the
failure is any non-`RuntimeError` exception, or a `RuntimeError` whose
lower-cased message contains "safety filter" (content rejection); but a
`RuntimeError` whose message lacks "safety filter" — in particular
`"<Provider> not available"` raised when credentials or the library are
missing — is re-raised and propagates to the caller. -/
theorem ai_failure_handling (text p : List Char) (a : Avail)
    (remote : Except PyExc (List Char)) (e : PyExc)
    (hp : isAiProvider p = true)
    (hfail : callAdapter p a remote = .error e) :
    ((e = .otherExc ∨ ∃ m, e = .runtimeError m
        ∧ pyContains (pyLower m) "safety filter".toList = true) →
      analyze_chapters_ai text (some p) a remote = .ok emptyChapterResult
      ∧ extract_topics_ai text (some p) a remote = .ok [])
    ∧ (∀ m, e = .runtimeError m →
        pyContains (pyLower m) "safety filter".toList = false →
      analyze_chapters_ai text (some p) a remote = .error e
      ∧ extract_topics_ai text (some p) a remote = .error e) := by
  have hp3 : p = "groq".toList ∨ p = "gemini".toList ∨ p = "openai".toList := by
    simpa [isAiProvider] using hp
  have hpne : p ≠ [] := by rcases hp3 with rfl | rfl | rfl <;> decide
  have hres : resolveProvider (some p) a = p := by simp [resolveProvider, hpne]
  constructor
  · rintro (rfl | ⟨m, rfl, hm⟩)
    · constructor <;>
        simp [analyze_chapters_ai, extract_topics_ai, hres, hp, hfail, aiExcTail,
          except_bind_error, emptyChapterResult]
    · constructor <;>
        (simp [analyze_chapters_ai, extract_topics_ai, hres, hp, hfail, aiExcTail,
          except_bind_error, emptyChapterResult]; exact hm)
  · rintro m rfl hm
    constructor <;>
      (simp [analyze_chapters_ai, extract_topics_ai, hres, hp, hfail, aiExcTail,
        except_bind_error]; exact hm)

/-- Witness for the amended C1: a transient (non-`RuntimeError`) remote
failure on an available groq backend yields the empty results. -/
theorem ai_failure_handling_witness :
    analyze_chapters_ai [] (some "groq".toList) ⟨true, false, false⟩ (.error .otherExc)
      = .ok emptyChapterResult
    ∧ extract_topics_ai [] (some "groq".toList) ⟨true, false, false⟩ (.error .otherExc)
      = .ok [] :=
  (ai_failure_handling [] "groq".toList ⟨true, false, false⟩ (.error .otherExc) .otherExc
    (by decide) (by decide)).1 (Or.inl rfl)

/-- Claim C2 counterexample: for provider "basic", a batch of 15 questions
with `max_questions = 10` yields 15 records — one defaulted record per
question, with no cap — not the claimed 10: the `provider == "basic"` early
return maps the default record over the whole question list before the
`questions[:max_questions]` slice is ever taken. -/
theorem classify_questions_basic_counterexample :
    (classify_questions_ai (List.replicate 15 ([], .ok [])) (some "basic".toList)
        ⟨false, false, false⟩ 10).length = 15
    ∧ ¬((classify_questions_ai (List.replicate 15 ([], .ok [])) (some "basic".toList)
        ⟨false, false, false⟩ 10).length = 10)
    ∧ ∀ q ∈ classify_questions_ai (List.replicate 15 ([], .ok [])) (some "basic".toList)
        ⟨false, false, false⟩ 10, q = defaultQRec := by decide

/-- Claim C2 (amended): for every provider other than "basic" (and other than
the empty string, which resolves to the default provider) and every
nonnegative `max_questions`, a question list longer than `max_questions`
produces exactly `max_questions` records, the i-th record coming from the
i-th question (input order); the remaining questions are omitted entirely.
For provider "basic" the cap is ignored and every question gets a defaulted
record (see the counterexample). -/
theorem classify_questions_cap
    (questions : List (List Char × Except PyExc (List Char)))
    (p : List Char) (a : Avail) (max_questions : Int)
    (hpb : p ≠ "basic".toList) (hpe : p ≠ []) (hmax : 0 ≤ max_questions)
    (hlen : max_questions < (questions.length : Int)) :
    (classify_questions_ai questions (some p) a max_questions).length = max_questions.toNat
    ∧ ∀ (i : Nat) (h1 : i < (classify_questions_ai questions (some p) a max_questions).length)
        (h2 : i < questions.length),
        (classify_questions_ai questions (some p) a max_questions).get ⟨i, h1⟩
          = handleQuestion p a (questions.get ⟨i, h2⟩) := by
  have hres : resolveProvider (some p) a = p := by simp [resolveProvider, hpe]
  have hcq : classify_questions_ai questions (some p) a max_questions
      = (questions.take (pyIdx questions.length max_questions)).map (handleQuestion p a) := by
    simp only [classify_questions_ai, hres]
    rw [if_neg hpb]
    rfl
  have hlen2 : (questions.take (pyIdx questions.length max_questions)).length
      = max_questions.toNat := by
    simp only [pyIdx, List.length_take]
    rw [if_neg (by omega)]
    have h1 := Int.toNat_of_nonneg hmax
    omega
  refine ⟨by rw [hcq, List.length_map, hlen2], ?_⟩
  intro i h1 h2
  have h1' : i < (classify_questions_ai questions (some p) a max_questions).length := h1
  simp only [hcq, List.get_eq_getElem] at h1' ⊢
  rw [List.getElem_map, List.getElem_take]

/-- Witness for the amended C2: 3 questions, cap 2, provider "groq". -/
theorem classify_questions_cap_witness :
    (classify_questions_ai
        [("q1".toList, .ok []), ("q2".toList, .ok []), ("q3".toList, .ok [])]
        (some "groq".toList) ⟨false, false, false⟩ 2).length = (2 : Int).toNat :=
  (classify_questions_cap
    [("q1".toList, .ok []), ("q2".toList, .ok []), ("q3".toList, .ok [])]
    "groq".toList ⟨false, false, false⟩ 2
    (by decide) (by decide) (by decide) (by decide)).1

/-- Claim C10 counterexample: when the adapter call succeeds but the reply
fails every parse stage, `_extract_json` returns `\x7b\x7d` (it never
raises), the loop body runs to completion, and the appended record is
`\x7b"chapter": "Unknown", "topics": [], "confidence": 0.5\x7d` — the 0.5
`.get` default read off the empty mapping — NOT the claimed defaulted
record with confidence 0.0. -/
theorem classify_questions_parse_default_counterexample :
    classify_questions_ai [("q1".toList, .ok "not json".toList)]
        (some "groq".toList) ⟨true, false, false⟩ 10
      = [⟨Json.str "Unknown".toList, Json.arr .nil, Json.num 5 (-1)⟩]
    ∧ (⟨Json.str "Unknown".toList, Json.arr .nil, Json.num 5 (-1)⟩ : QRec)
        ≠ defaultQRec := by
  refine ⟨by decide, by decide⟩

/-- Claim C10 (amended): for every provider other than "basic" (and
non-empty), one record per processed question in input order — the output
length is `min(len(questions), max_questions)` — and a failed question is
never omitted; but the record it yields depends on how it failed: a raised
adapter call (or a provider that is none of the three known AI backends)
yields the defaulted record with confidence 0.0; a reply that fails every
parse stage (so `_extract_json` returns the empty mapping) yields
`\x7b"chapter": "Unknown", "topics": [], "confidence": 0.5\x7d`, the `.get`
defaults with confidence 0.5; and a reply that parses to a non-dict value
makes the `.get` calls raise, which the loop catches, yielding the
confidence-0.0 defaulted record. -/
theorem classify_questions_per_question
    (questions : List (List Char × Except PyExc (List Char)))
    (p : List Char) (a : Avail) (max_questions : Int)
    (hpb : p ≠ "basic".toList) (hpe : p ≠ []) (hmax : 0 ≤ max_questions) :
    (classify_questions_ai questions (some p) a max_questions).length
      = min questions.length max_questions.toNat
    ∧ (∀ (i : Nat) (h1 : i < (classify_questions_ai questions (some p) a max_questions).length)
        (h2 : i < questions.length) (e : PyExc),
        (isAiProvider p = true →
          callAdapter p a (questions.get ⟨i, h2⟩).2 = .error e) →
        (classify_questions_ai questions (some p) a max_questions).get ⟨i, h1⟩
          = defaultQRec)
    ∧ (∀ (i : Nat) (h1 : i < (classify_questions_ai questions (some p) a max_questions).length)
        (h2 : i < questions.length) (reply : List Char),
        isAiProvider p = true →
        callAdapter p a (questions.get ⟨i, h2⟩).2 = .ok reply →
        extract_json reply = Json.obj .nil →
        (classify_questions_ai questions (some p) a max_questions).get ⟨i, h1⟩
          = ⟨Json.str "Unknown".toList, Json.arr .nil, Json.num 5 (-1)⟩)
    ∧ (∀ (i : Nat) (h1 : i < (classify_questions_ai questions (some p) a max_questions).length)
        (h2 : i < questions.length) (reply : List Char),
        isAiProvider p = true →
        callAdapter p a (questions.get ⟨i, h2⟩).2 = .ok reply →
        (∀ fs : JFields, extract_json reply ≠ Json.obj fs) →
        (classify_questions_ai questions (some p) a max_questions).get ⟨i, h1⟩
          = defaultQRec) := by
  have hres : resolveProvider (some p) a = p := by simp [resolveProvider, hpe]
  have hcq : classify_questions_ai questions (some p) a max_questions
      = (questions.take (pyIdx questions.length max_questions)).map (handleQuestion p a) := by
    simp only [classify_questions_ai, hres]
    rw [if_neg hpb]
    rfl
  refine ⟨?_, ?_, ?_, ?_⟩
  · rw [hcq, List.length_map]
    simp only [pyIdx, List.length_take]
    rw [if_neg (by omega)]
    have h1 := Int.toNat_of_nonneg hmax
    omega
  · intro i h1 h2 e hfail
    have h1' : i < (classify_questions_ai questions (some p) a max_questions).length := h1
    simp only [hcq, List.get_eq_getElem] at h1' ⊢
    rw [List.getElem_map, List.getElem_take]
    by_cases hai : isAiProvider p = true
    · have hfail' := hfail hai
      simp only [List.get_eq_getElem] at hfail'
      simp [handleQuestion, hai, hfail', except_bind_error]
    · simp [handleQuestion, hai]
  · intro i h1 h2 reply hai hok hext
    have h1' : i < (classify_questions_ai questions (some p) a max_questions).length := h1
    simp only [hcq, List.get_eq_getElem] at h1' ⊢
    rw [List.getElem_map, List.getElem_take]
    simp only [List.get_eq_getElem] at hok
    have hnq : normalizeQuestion (Json.obj .nil)
        = .ok ⟨Json.str "Unknown".toList, Json.arr .nil, Json.num 5 (-1)⟩ := rfl
    simp [handleQuestion, hai, hok, except_bind_ok, hext, hnq]
  · intro i h1 h2 reply hai hok hnobj
    have h1' : i < (classify_questions_ai questions (some p) a max_questions).length := h1
    simp only [hcq, List.get_eq_getElem] at h1' ⊢
    rw [List.getElem_map, List.getElem_take]
    simp only [List.get_eq_getElem] at hok
    have hnq : normalizeQuestion (extract_json reply) = .error .otherExc := by
      cases hj : extract_json reply with
      | obj fs => exact absurd hj (hnobj fs)
      | null => rfl
      | bool b => rfl
      | num m e2 => rfl
      | str s2 => rfl
      | arr es => rfl
    simp [handleQuestion, hai, hok, except_bind_ok, hnq]

/-- Witness for the amended C10: provider "groq" available, reply
`"not json"` fails every parse stage, and the single processed question
yields the confidence-0.5 record. -/
theorem classify_questions_per_question_witness :
    (classify_questions_ai [("q1".toList, .ok "not json".toList)]
        (some "groq".toList) ⟨true, false, false⟩ 10).get ⟨0, by decide⟩
      = ⟨Json.str "Unknown".toList, Json.arr .nil, Json.num 5 (-1)⟩ :=
  (classify_questions_per_question [("q1".toList, .ok "not json".toList)]
    "groq".toList ⟨true, false, false⟩ 10 (by decide) (by decide) (by decide)).2.2.1
    0 (by decide) (by decide) "not json".toList (by decide) (by decide) (by decide)

theorem supplementFold [DecidableEq κ] (basic : List (κ × α)) :
    ∀ ai : List (κ × α), (basic.map Prod.fst).Nodup →
    basic.foldl (fun acc p => if acc.any (fun q => q.1 = p.1) then acc else acc ++ [p]) ai
      = ai ++ basic.filter (fun p => decide (p.1 ∉ ai.map Prod.fst)) := by
  induction basic with
  | nil => intro ai _; simp
  | cons b bs ih =>
    intro ai hnd
    rw [List.map_cons, List.nodup_cons] at hnd
    obtain ⟨hb, hnd'⟩ := hnd
    rw [List.foldl_cons]
    by_cases hmem : b.1 ∈ ai.map Prod.fst
    · have hany : ai.any (fun q => q.1 = b.1) = true := by
        rw [List.any_eq_true]
        obtain ⟨q, hq, hq1⟩ := List.mem_map.mp hmem
        exact ⟨q, hq, by simp [hq1]⟩
      have hstep : (if ai.any (fun q => q.1 = b.1) then ai else ai ++ [b]) = ai := by
        simp [hany]
      rw [hstep, ih ai hnd']
      congr 1
      rw [List.filter_cons]
      simp [hmem]
    · have hany : ai.any (fun q => q.1 = b.1) = false := by
        rw [List.any_eq_false]
        intro q hq
        simp only [decide_eq_true_eq]
        intro h1
        exact hmem (List.mem_map.mpr ⟨q, hq, h1⟩)
      have hstep : (if ai.any (fun q => q.1 = b.1) then ai else ai ++ [b]) = ai ++ [b] := by
        simp [hany]
      rw [hstep, ih (ai ++ [b]) hnd']
      rw [List.filter_cons]
      have hkeep : (decide (b.1 ∉ ai.map Prod.fst)) = true := by simp [hmem]
      rw [if_pos hkeep]
      have hfc : bs.filter (fun p => decide (p.1 ∉ (ai ++ [b]).map Prod.fst))
          = bs.filter (fun p => decide (p.1 ∉ ai.map Prod.fst)) := by
        apply List.filter_congr
        intro p hp
        have hpb : p.1 ≠ b.1 := by
          intro hcontra
          exact hb (hcontra ▸ List.mem_map.mpr ⟨p, hp, rfl⟩)
        simp [List.mem_append, hpb]
      rw [hfc, List.append_assoc]
      rfl

theorem lookup_of_mem_keys [DecidableEq κ] (l : List (κ × α)) (k : κ)
    (h : k ∈ l.map Prod.fst) : ∃ v, l.lookup k = some v := by
  induction l with
  | nil => simp at h
  | cons a t ih =>
    obtain ⟨a1, a2⟩ := a
    by_cases hk : k = a1
    · exact ⟨a2, by simp [List.lookup_cons, hk]⟩
    · rw [List.map_cons] at h
      rcases List.mem_cons.mp h with h1 | h1
      · exact absurd h1 hk
      · obtain ⟨v, hv⟩ := ih h1
        have hbeq : (k == a1) = false := by simp [hk]
        exact ⟨v, by simp [List.lookup_cons, hbeq, hv]⟩

/-- Claim C8 counterexample: in the Streamlit app the heuristic result is
used only when the AI result is entirely empty, not when it is merely
sparse: an AI result with exactly 1 chapter (fewer than 2) is returned
untouched, and the heuristic entry "Chemistry" is NOT merged in. -/
theorem supplement_streamlit_counterexample :
    streamlitSupplement [("Physics".toList, (9 : Nat))] [("Chemistry".toList, 2)]
      = [("Physics".toList, 9)]
    ∧ "Chemistry".toList ∉
        (streamlitSupplement [("Physics".toList, (9 : Nat))]
          [("Chemistry".toList, 2)]).map Prod.fst := by decide

/-- Claim C8 (amended): in the Flask app (`upload_file`), when the AI result
has fewer than 2 chapters (resp. fewer than 5 topics) the heuristic entries
whose names are not already present are appended, in heuristic order, and on
a name collision the AI entry is kept unchanged (AI entries take precedence;
`basic` is a dict, so its names are assumed distinct).  The Streamlit app
(`run_analysis_on_bytes`) instead replaces the AI result with the heuristic
one only when the AI result is entirely empty, and never merges. -/
theorem supplement_policy [DecidableEq κ] (ai basic : List (κ × α))
    (hnd : (basic.map Prod.fst).Nodup) :
    (ai.length < 2 → supplementEntries 2 ai basic
        = ai ++ basic.filter (fun p => decide (p.1 ∉ ai.map Prod.fst)))
    ∧ (ai.length < 5 → supplementEntries 5 ai basic
        = ai ++ basic.filter (fun p => decide (p.1 ∉ ai.map Prod.fst)))
    ∧ (∀ (threshold : Nat) (k : κ), k ∈ ai.map Prod.fst →
        (supplementEntries threshold ai basic).lookup k = ai.lookup k)
    ∧ (ai ≠ [] → streamlitSupplement ai basic = ai)
    ∧ streamlitSupplement ([] : List (κ × α)) basic = basic := by
  refine ⟨?_, ?_, ?_, ?_, by simp [streamlitSupplement]⟩
  · intro h2
    rw [supplementEntries, if_pos h2]
    exact supplementFold basic ai hnd
  · intro h5
    rw [supplementEntries, if_pos h5]
    exact supplementFold basic ai hnd
  · intro threshold k hk
    by_cases ht : ai.length < threshold
    · rw [supplementEntries, if_pos ht, supplementFold basic ai hnd,
        List.lookup_append]
      obtain ⟨v, hv⟩ := lookup_of_mem_keys ai k hk
      rw [hv]
      rfl
    · rw [supplementEntries, if_neg ht]
  · intro hne
    rw [streamlitSupplement, if_neg (by simpa [List.isEmpty_iff] using hne)]

/-- Witness for the amended C8: a 1-chapter AI result merged with a disjoint
1-entry heuristic result in the Flask app. -/
theorem supplement_policy_witness :
    supplementEntries 2 [("Physics".toList, (9 : Nat))] [("Chemistry".toList, 2)]
      = [("Physics".toList, (9 : Nat))] ++ [("Chemistry".toList, (2 : Nat))].filter
          (fun p => decide (p.1 ∉ ([("Physics".toList, (9 : Nat))]).map Prod.fst)) :=
  (supplement_policy [("Physics".toList, (9 : Nat))] [("Chemistry".toList, 2)]
    (by decide)).1 (by decide)

theorem nodup_fst_unique {κ β : Type} {l : List (κ × β)}
    (hnd : (l.map Prod.fst).Nodup) {c : κ} {k1 k2 : β}
    (h1 : (c, k1) ∈ l) (h2 : (c, k2) ∈ l) : k1 = k2 := by
  induction l with
  | nil => simp at h1
  | cons a t ih =>
    rw [List.map_cons, List.nodup_cons] at hnd
    obtain ⟨ha, hnd'⟩ := hnd
    rcases List.mem_cons.mp h1 with heq1 | h1'
    · rcases List.mem_cons.mp h2 with heq2 | h2'
      · rw [← heq1] at heq2
        injection heq2 with hfst hsnd
        exact hsnd.symm
      · exfalso
        apply ha
        rw [← heq1]
        exact List.mem_map.mpr ⟨(c, k2), h2', rfl⟩
    · rcases List.mem_cons.mp h2 with heq2 | h2'
      · exfalso
        apply ha
        rw [← heq2]
        exact List.mem_map.mpr ⟨(c, k1), h1', rfl⟩
      · exact ih hnd' h1' h2'

/-- Claim C9: (1) for text containing only stop words and no lexicon keyword
(expressed as: every word token is a stop word, and every subject's summed
whole-word keyword count is zero), both heuristic scorers return the empty
result; (2) in general a subject appears in the `analyze_chapters` output
exactly when its summed whole-word keyword count is positive; (3) the output
is sorted descending by score. -/
theorem heuristic_scorers (t : List Char) :
    ((∀ w ∈ findallLowerWords (pyLower t), w ∈ stop_words) →
     (∀ pr ∈ CHAPTER_KEYWORDS, subjectCount pr.2 (pyLower t) = 0) →
     analyze_chapters t = [] ∧ extract_topics t = [])
    ∧ (∀ c kws, (c, kws) ∈ CHAPTER_KEYWORDS →
        (c ∈ (analyze_chapters t).map Prod.fst ↔ 0 < subjectCount kws (pyLower t)))
    ∧ (analyze_chapters t).Pairwise (fun x y => y.2 ≤ x.2) := by
  refine ⟨?_, ?_, ?_⟩
  · intro hw hk
    constructor
    · have hfil : (CHAPTER_KEYWORDS.map
          (fun p => (p.1, subjectCount p.2 (pyLower t)))).filter
          (fun p => p.2 ≠ 0) = [] := by
        rw [List.filter_eq_nil_iff]
        intro x hx
        obtain ⟨pr, hpr, rfl⟩ := List.mem_map.mp hx
        simp [hk pr hpr]
      simp only [analyze_chapters]
      rw [hfil]
      rfl
    · have hfil2 : (findallLowerWords (pyLower t)).filter
          (fun w => ¬ stop_words.contains w) = [] := by
        rw [List.filter_eq_nil_iff]
        intro w hwmem
        have hmem := hw w hwmem
        simp [List.contains_iff_exists_mem_beq]
        exact hmem
      simp only [extract_topics]
      rw [hfil2]
      rfl
  · intro c kws hmem
    have hnd : (CHAPTER_KEYWORDS.map Prod.fst).Nodup := by decide
    have hperm := (sortCountDesc_perm ((CHAPTER_KEYWORDS.map
      (fun p => (p.1, subjectCount p.2 (pyLower t)))).filter (fun p => p.2 ≠ 0))).map Prod.fst
    constructor
    · intro hcmem
      simp only [analyze_chapters] at hcmem
      have hcmem' := hperm.mem_iff.mp hcmem
      obtain ⟨x, hxk, hx1⟩ := List.mem_map.mp hcmem'
      obtain ⟨hxc, hxnz⟩ := List.mem_filter.mp hxk
      obtain ⟨pr, hpr, hpx⟩ := List.mem_map.mp hxc
      have hx : (c, x.2) ∈ CHAPTER_KEYWORDS.map
          (fun p => (p.1, subjectCount p.2 (pyLower t))) := by
        rw [show ((c, x.2) : List Char × Nat) = x from by
          rw [← hx1]]
        exact hxc
      have hcount : x.2 = subjectCount kws (pyLower t) := by
        have hcmem2 : ((c, subjectCount kws (pyLower t)) : List Char × Nat)
            ∈ CHAPTER_KEYWORDS.map (fun p => (p.1, subjectCount p.2 (pyLower t))) :=
          List.mem_map.mpr ⟨(c, kws), hmem, rfl⟩
        have hnd2 : ((CHAPTER_KEYWORDS.map
            (fun p => (p.1, subjectCount p.2 (pyLower t)))).map Prod.fst).Nodup := by
          rw [List.map_map]
          exact hnd
        exact nodup_fst_unique hnd2 hx hcmem2
      rw [← hcount]
      have : x.2 ≠ 0 := by simpa using hxnz
      omega
    · intro hpos
      simp only [analyze_chapters]
      apply hperm.mem_iff.mpr
      apply List.mem_map.mpr
      refine ⟨(c, subjectCount kws (pyLower t)), ?_, rfl⟩
      apply List.mem_filter.mpr
      refine ⟨List.mem_map.mpr ⟨(c, kws), hmem, rfl⟩, ?_⟩
      simp
      omega
  · simp only [analyze_chapters]
    exact sortCountDesc_pairwise _

/-- Witness for C9 at a stop-words-only text. -/
theorem heuristic_scorers_witness :
    analyze_chapters "what how the marks".toList = []
    ∧ extract_topics "what how the marks".toList = [] :=
  (heuristic_scorers "what how the marks".toList).1 (by decide) (by decide)

theorem dropWhile_append_all {p : α → Bool} (l₁ l₂ : List α)
    (h : ∀ c ∈ l₁, p c = true) :
    (l₁ ++ l₂).dropWhile p = l₂.dropWhile p := by
  induction l₁ with
  | nil => rfl
  | cons a t ih =>
    rw [List.cons_append, List.dropWhile_cons, if_pos (h a (List.mem_cons_self a t))]
    exact ih (fun c hc => h c (List.mem_cons_of_mem a hc))

theorem dropWhile_append_keep {p : α → Bool} (l₁ l₂ : List α)
    (h : l₂.dropWhile p = l₂) :
    (l₁ ++ l₂).dropWhile p = l₁.dropWhile p ++ l₂ := by
  rw [List.dropWhile_append]
  split
  · rename_i hemp
    rw [h, List.isEmpty_iff.mp hemp]
    rfl
  · rfl

theorem dropWhile_head_false {p : α → Bool} (l : List α) (c : α) (r : List α)
    (h : l.dropWhile p = c :: r) : p c = false := by
  induction l with
  | nil => simp at h
  | cons a t ih =>
    rw [List.dropWhile_cons] at h
    split at h
    · exact ih h
    · rename_i hpa
      injection h with h1 _
      subst h1
      simpa using hpa

theorem isJsonWs_isPySpace (c : Char) (h : isJsonWs c = true) : isPySpace c = true := by
  simp only [isJsonWs, decide_eq_true_eq] at h
  rcases h with rfl | rfl | rfl | rfl <;> decide

/-- Stripping `pre ++ core ++ post` with `core` ending in non-whitespace on
both sides only strips inside `pre` and `post`. -/
theorem pyStrip_decompose (pre core post : List Char)
    (hhead : ∃ c rest, core = c :: rest ∧ isPySpace c = false)
    (hlast : ∃ init c, core = init ++ [c] ∧ isPySpace c = false) :
    pyStrip (pre ++ core ++ post)
      = pre.dropWhile isPySpace ++ core
          ++ (post.reverse.dropWhile isPySpace).reverse := by
  obtain ⟨c0, rest0, hc0, hws0⟩ := hhead
  obtain ⟨init1, c1, hc1, hws1⟩ := hlast
  have hcorepost : (core ++ post).dropWhile isPySpace = core ++ post := by
    rw [hc0, List.cons_append, List.dropWhile_cons, if_neg (by simp [hws0])]
  have step1 : (pre ++ core ++ post).dropWhile isPySpace
      = pre.dropWhile isPySpace ++ (core ++ post) := by
    rw [List.append_assoc]
    exact dropWhile_append_keep pre (core ++ post) hcorepost
  have hcorerev : (core.reverse ++ (pre.dropWhile isPySpace).reverse).dropWhile isPySpace
      = core.reverse ++ (pre.dropWhile isPySpace).reverse := by
    rw [hc1, List.reverse_append, List.reverse_singleton, List.singleton_append,
      List.cons_append, List.dropWhile_cons, if_neg (by simp [hws1])]
  have step2 : (pre.dropWhile isPySpace ++ (core ++ post)).reverse
      = post.reverse ++ (core.reverse ++ (pre.dropWhile isPySpace).reverse) := by
    rw [List.reverse_append, List.reverse_append, List.append_assoc]
  rw [pyStrip, step1, step2,
    dropWhile_append_keep post.reverse _ hcorerev,
    List.reverse_append, List.reverse_append, List.reverse_reverse,
    List.reverse_reverse, List.append_assoc]

theorem parseValue_none_of_bad (fuel : Nat) (c : Char) (cs : List Char)
    (h : jsonStartish c = false) : parseValue (fuel + 1) (c :: cs) = none := by
  rw [jsonStartish, decide_eq_false_iff_not] at h
  push_neg at h
  obtain ⟨h1, h2, h3, h4, h5, h6, h7, h8, _, _, _⟩ := h
  rw [parseValue]
  rw [if_neg h1, if_neg h2, if_neg h3, if_neg h4, if_neg h5, if_neg h6,
    if_neg (by simp [h7, h8])]

theorem json_loads_none_of_bad (l : List Char) (c : Char) (r : List Char)
    (hsplit : jsonSkipWs l = c :: r) (h : jsonStartish c = false) :
    json_loads l = none := by
  rw [json_loads, hsplit, parseValue_none_of_bad l.length c r h]

/-- The brace-region stage, computed: with no opening brace before `s` and
no closing brace after it, the region is exactly `s`. -/
theorem braceRegion_extract (x s y : List Char)
    (hx : lbrace ∉ x) (hy : rbrace ∉ y)
    (hhead : ∃ s1, s = lbrace :: s1) (hlast : ∃ s2, s = s2 ++ [rbrace]) :
    braceRegion (x ++ s ++ y) = some s := by
  obtain ⟨s1, hs1⟩ := hhead
  obtain ⟨s2, hs2⟩ := hlast
  have h1 : (x ++ s ++ y).dropWhile (fun c => ¬(c = lbrace)) = s ++ y := by
    rw [List.append_assoc,
      dropWhile_append_all x _ (fun c hc => by simp; intro heq; exact hx (heq ▸ hc)),
      hs1, List.cons_append, List.dropWhile_cons, if_neg (by simp)]
  have h2 : (s ++ y).reverse.dropWhile (fun c => ¬(c = rbrace)) = s.reverse := by
    rw [List.reverse_append,
      dropWhile_append_all y.reverse _
        (fun c hc => by simp; intro heq; exact hy (heq ▸ List.mem_reverse.mp hc)),
      hs2, List.reverse_append, List.reverse_singleton, List.singleton_append,
      List.dropWhile_cons, if_neg (by simp)]
  rw [braceRegion]
  simp only [h1, h2]
  rw [if_neg (by simp [hs1]), if_neg (by simp [hs2]), List.reverse_reverse]

/-- Claim C4: `_extract_json` is a total function (the Lean embedding returns
on every input, mirroring that every Python stage catches its
`JSONDecodeError`), and whenever all three parse stages fail it returns the
empty mapping. -/
theorem extract_json_total_failure (text : List Char)
    (h1 : json_loads (fenceCleaned text) = none)
    (h2 : (braceRegion (fenceCleaned text)).bind json_loads = none)
    (h3 : json_loads text = none) :
    extract_json text = Json.obj .nil := by
  simp [extract_json, h1, h2, h3]

/-- Witness for C4 at the spec's example input `"hello world"`. -/
theorem extract_json_total_failure_witness :
    extract_json "hello world".toList = Json.obj .nil :=
  extract_json_total_failure "hello world".toList (by decide) (by decide) (by decide)

/-- Claim C3 counterexample: the payload is a valid JSON object and it is
embedded in a fenced block, but the surrounding prose contains braces, so
recovery fails: the reply does not start with the fence (no stripping), the
direct parse fails, the greedy first-`\x7b`-to-last-`\x7d` region starts
inside the prose and is not valid JSON, the original text is not valid JSON
either, and `_extract_json` returns the empty mapping instead of the
payload. -/
theorem extract_json_roundtrip_counterexample :
    json_loads "\x7b\"a\": 1\x7d".toList
      = some (Json.obj (JFields.cons "a".toList (Json.num 1 0) .nil))
    ∧ extract_json
        "Result \x7bunclear\x7d:\n\x60\x60\x60json\n\x7b\"a\": 1\x7d\n\x60\x60\x60".toList
      = Json.obj .nil
    ∧ Json.obj .nil ≠ Json.obj (JFields.cons "a".toList (Json.num 1 0) .nil) := by
  refine ⟨by decide, by decide, by decide⟩

/-- Claim C3 (amended): for every valid JSON object payload embedded in a
triple-backtick fenced block (with or without a language tag), recovery of
the exact payload is guaranteed when either (a) the fenced block is the
whole reply up to surrounding whitespace, or (b) the surrounding prose
contains no curly braces and its first non-whitespace character is an
ordinary prose character (not a backtick and not anything that can begin a
JSON document).  With fully arbitrary prose the round-trip fails (see the
counterexample: braces in the prose defeat the greedy brace-region
stage). -/
theorem extract_json_fenced_roundtrip
    (pre tag s post : List Char) (o : JFields)
    (hparse : json_loads s = some (Json.obj o))
    (hs_head : ∃ s1, s = lbrace :: s1)
    (hs_last : ∃ s2, s = s2 ++ [rbrace])
    (htag : '\n' ∉ tag)
    (hcase :
      (pre.all isPySpace ∧ post.all isPySpace)
      ∨ ((∃ c pr, pre.dropWhile isPySpace = c :: pr ∧ jsonStartish c = false)
          ∧ lbrace ∉ pre ∧ rbrace ∉ pre ∧ lbrace ∉ tag ∧ rbrace ∉ tag
          ∧ lbrace ∉ post ∧ rbrace ∉ post)) :
    extract_json (pre ++ ([btick, btick, btick] ++ tag ++ '\n' :: s
        ++ ['\n', btick, btick, btick]) ++ post) = Json.obj o := by
  obtain ⟨s1, hs1⟩ := hs_head
  obtain ⟨s2, hs2⟩ := hs_last
  set core : List Char :=
    [btick, btick, btick] ++ tag ++ '\n' :: s ++ ['\n', btick, btick, btick] with hcore
  have hcore_head : ∃ c rest, core = c :: rest ∧ isPySpace c = false :=
    ⟨btick, [btick, btick] ++ tag ++ '\n' :: s ++ ['\n', btick, btick, btick],
      by simp [hcore], by decide⟩
  have hcore_last : ∃ init c, core = init ++ [c] ∧ isPySpace c = false :=
    ⟨[btick, btick, btick] ++ tag ++ '\n' :: s ++ ['\n', btick, btick], btick,
      by simp [hcore], by decide⟩
  have hstrip := pyStrip_decompose pre core post hcore_head hcore_last
  have hs_strip : pyStrip (s ++ ['\n']) = s := by
    have h0 := pyStrip_decompose [] s ['\n']
      ⟨lbrace, s1, hs1, by decide⟩ ⟨s2, rbrace, hs2, by decide⟩
    simp only [List.nil_append] at h0
    rw [h0]
    simp [isPySpace]
  rcases hcase with ⟨hpre, hpost⟩ | hB
  · -- Case (a): the reply is the fenced block up to surrounding whitespace.
    have hpre0 : pre.dropWhile isPySpace = [] :=
      List.dropWhile_eq_nil_iff.mpr (List.all_eq_true.mp hpre)
    have hpost0 : post.reverse.dropWhile isPySpace = [] :=
      List.dropWhile_eq_nil_iff.mpr
        (fun x hx => List.all_eq_true.mp hpost x (List.mem_reverse.mp hx))
    have hclean0 : pyStrip (pre ++ core ++ post) = core := by
      rw [hstrip, hpre0, hpost0]
      simp
    have hpref : [btick, btick, btick].isPrefixOf core = true := by
      rw [show core = btick :: btick :: btick ::
          (tag ++ '\n' :: s ++ ['\n', btick, btick, btick]) from by simp [hcore]]
      simp [List.isPrefixOf]
    have hdw : core.dropWhile (fun c => ¬(c = '\n'))
        = '\n' :: (s ++ ['\n', btick, btick, btick]) := by
      rw [show core = ([btick, btick, btick] ++ tag)
          ++ ('\n' :: (s ++ ['\n', btick, btick, btick])) from by simp [hcore]]
      rw [dropWhile_append_all _ _ ?hall]
      · rw [List.dropWhile_cons, if_neg (by simp)]
      case hall =>
        intro c hc
        rcases List.mem_append.mp hc with hc1 | hc2
        · rcases List.mem_cons.mp hc1 with rfl | hc1'
          · decide
          · rcases List.mem_cons.mp hc1' with rfl | hc1''
            · decide
            · rcases List.mem_cons.mp hc1'' with rfl | hc1'''
              · decide
              · simp at hc1'''
        · simp only [decide_eq_true_eq]
          intro heq
          exact htag (heq ▸ hc2)
    have hsuf : [btick, btick, btick].isSuffixOf (s ++ ['\n', btick, btick, btick])
        = true := by
      rw [List.isSuffixOf_iff_suffix]
      exact ⟨s ++ ['\n'], by simp⟩
    have hslice : pySliceTo (s ++ ['\n', btick, btick, btick]) (-3) = s ++ ['\n'] := by
      have hlen : pyIdx (s ++ ['\n', btick, btick, btick]).length (-3)
          = (s ++ ['\n']).length := by
        simp only [pyIdx, List.length_append, List.length_cons, List.length_nil,
          List.length_singleton]
        rw [if_pos (by decide)]
        omega
      rw [pySliceTo, hlen,
        show s ++ ['\n', btick, btick, btick]
          = (s ++ ['\n']) ++ [btick, btick, btick] from by simp,
        List.take_left']
      simp
    have hfc : fenceCleaned (pre ++ core ++ post) = s := by
      simp only [fenceCleaned, hclean0, hpref, if_true, hdw, hsuf, hslice, hs_strip]
    simp only [extract_json, hfc, hparse]
  · -- Case (b): brace-free prose around the fence, starting unlike JSON.
    obtain ⟨⟨c, pr, hdrop, hbad⟩, hlb_pre, hrb_pre, hlb_tag, hrb_tag,
      hlb_post, hrb_post⟩ := hB
    have hcws : isPySpace c = false := dropWhile_head_false pre c pr hdrop
    have hcb : c ≠ btick := by
      intro h
      subst h
      have ht : jsonStartish btick = true := by decide
      rw [ht] at hbad
      cases hbad
    have hcjws : isJsonWs c = false := by
      by_contra hx
      rw [Bool.not_eq_false] at hx
      rw [isJsonWs_isPySpace c hx] at hcws
      cases hcws
    set post' : List Char := (post.reverse.dropWhile isPySpace).reverse with hpost'
    have hclean0 : pyStrip (pre ++ core ++ post) = (c :: pr) ++ core ++ post' := by
      rw [hstrip, hdrop]
    have hceq : (c :: pr) ++ core ++ post' = c :: (pr ++ core ++ post') := by
      simp
    have hpref : [btick, btick, btick].isPrefixOf ((c :: pr) ++ core ++ post')
        = false := by
      rw [hceq]
      simp [List.isPrefixOf, Ne.symm hcb]
    have hloads : json_loads ((c :: pr) ++ core ++ post') = none := by
      apply json_loads_none_of_bad _ c (pr ++ core ++ post') _ hbad
      rw [hceq, jsonSkipWs, List.dropWhile_cons, if_neg (by simp [hcjws])]
    have hpost'_sub : ∀ x ∈ post', x ∈ post := by
      intro x hx
      rw [hpost', List.mem_reverse] at hx
      exact List.mem_reverse.mp ((List.dropWhile_sublist isPySpace).subset hx)
    have hshape : (c :: pr) ++ core ++ post'
        = ((c :: pr) ++ ([btick, btick, btick] ++ (tag ++ ['\n']))) ++ s
            ++ (['\n', btick, btick, btick] ++ post') := by
      simp [hcore]
    have hbr : braceRegion ((c :: pr) ++ core ++ post') = some s := by
      rw [hshape]
      apply braceRegion_extract _ _ _ ?hx ?hy ⟨s1, hs1⟩ ⟨s2, hs2⟩
      case hx =>
        intro hmem
        rcases List.mem_append.mp hmem with h1 | h2
        · have hmem2 : lbrace ∈ pre.dropWhile isPySpace := by rw [hdrop]; exact h1
          exact hlb_pre ((List.dropWhile_sublist isPySpace).subset hmem2)
        · rcases List.mem_append.mp h2 with h3 | h4
          · simp only [List.mem_cons, List.not_mem_nil, or_false] at h3
            rcases h3 with h | h | h <;> exact absurd h (by decide)
          · rcases List.mem_append.mp h4 with h5 | h6
            · exact hlb_tag h5
            · simp only [List.mem_singleton] at h6
              exact absurd h6 (by decide)
      case hy =>
        intro hmem
        rcases List.mem_append.mp hmem with h1 | h2
        · simp only [List.mem_cons, List.not_mem_nil, or_false] at h1
          rcases h1 with h | h | h | h <;> exact absurd h (by decide)
        · exact hrb_post (hpost'_sub _ h2)
    have hfc : fenceCleaned (pre ++ core ++ post) = (c :: pr) ++ core ++ post' := by
      simp only [fenceCleaned, hclean0, hpref]
      rw [if_neg (by simp)]
    have hb2 : ((some s).bind fun a => json_loads a) = some (Json.obj o) := by
      simp [hparse]
    simp only [extract_json, hfc, hloads, hbr, hb2]

/-- Witness for the amended C3: the payload embedded in a `json`-tagged
fence, with brace-free prose before and after, is recovered exactly. -/
theorem extract_json_fenced_roundtrip_witness :
    extract_json ("Here is the result: ".toList
        ++ ([btick, btick, btick] ++ "json".toList ++ '\n' :: "\x7b\"a\": 1\x7d".toList
            ++ ['\n', btick, btick, btick]) ++ "\nDone.".toList)
      = Json.obj (JFields.cons "a".toList (Json.num 1 0) .nil) :=
  extract_json_fenced_roundtrip "Here is the result: ".toList "json".toList
    "\x7b\"a\": 1\x7d".toList "\nDone.".toList
    (JFields.cons "a".toList (Json.num 1 0) .nil)
    (by decide)
    ⟨"\"a\": 1\x7d".toList, by decide⟩
    ⟨"\x7b\"a\": 1".toList, by decide⟩
    (by decide)
    (Or.inr ⟨⟨'H', "ere is the result: ".toList, by decide, by decide⟩,
      by decide, by decide, by decide, by decide, by decide, by decide⟩)
